import Mathlib

/-!
# Verification of the Scratch remote-sensor connection client

Shallow embedding of `scratch/scratch.py` (class `RemoteSensorConnection`):
the frame codec inside `_receiver`, the message grammar of
`send_broadcast` / `send_sensor_update` and of the inbound parsing in
`_receiver`, the argument validation of the public operations, and the
connected-flag state machine.

Python strings are modelled as lists of Unicode code points (`List Nat`),
byte strings as lists of byte values (`List Nat`, each `< 256`).
Fallible Python code (raised exceptions) is modelled with `Except PyErr`.
The semantics embedded is that of Python 2.7, the interpreter declared by
`scratch/__init__.py` and the only one under which the module's calls run
(the code references the Python-2-only name `unicode`).
A Python `float` travels through this program only as the token that
`str(value)` prints for it, so the grammar layer models a float value by
that token.  This identifies distinct floats that print identically:
Python 2.7's `str(float)` is the lossy 12-significant-digit `'%.12g'`
rendering (modelled value-level by `py2FloatStr` over the exact dyadic
value of the double), so `float(str(x)) == x` fails for most fractional
values — the wire format preserves float values only to 12 significant
decimal digits, as the sensor-update round-trip correction makes
precise.
-/

/-- Code points of a Lean string literal; used to write Python string
constants from the source readably. -/
def strLit (s : String) : List Nat := s.data.map Char.toNat

/-- Python errors relevant to the embedded code paths. -/
inductive PyErr where
  | valueError
  | indexError
  | unicodeError
deriving DecidableEq, Repr

deriving instance DecidableEq for Except

/-- Whitespace recognized by Python's `str.strip()` (ASCII part). -/
def isWs (c : Nat) : Bool := c = 32 || c = 9 || c = 10 || c = 13 || c = 11 || c = 12

/-- ASCII decimal digit test. -/
def isDigitCp (c : Nat) : Bool := 48 ≤ c && c ≤ 57

/-- `s.startswith(p)` on code-point lists. -/
def startsWith : List Nat → List Nat → Bool
  | [], _ => true
  | _ :: _, [] => false
  | p :: ps, c :: cs => p = c && startsWith ps cs

/-- Python `s.replace(pat, '', n)` (deletion-only replace with a count):
scan left to right, delete the first `n` non-overlapping occurrences of
`pat`.  Only called with nonempty `pat` in the source. -/
def replaceDelAux : Nat → List Nat → List Nat → Nat → List Nat
  | 0, s, _, _ => s
  | fuel + 1, s, pat, n =>
    match n with
    | 0 => s
    | n + 1 =>
      match s with
      | [] => []
      | c :: r =>
        if startsWith pat (c :: r) = true ∧ pat ≠ [] then
          replaceDelAux fuel ((c :: r).drop pat.length) pat n
        else
          c :: replaceDelAux fuel r pat (n + 1)

def replaceDel (s pat : List Nat) (n : Nat) : List Nat := replaceDelAux s.length s pat n

/-- Python `s.split(sep)` for a one-character separator. -/
def pysplit (sep : Nat) : List Nat → List (List Nat)
  | [] => [[]]
  | c :: rest =>
    match pysplit sep rest with
    | [] => [[]]
    | t :: ts => if c = sep then [] :: t :: ts else (c :: t) :: ts

/-- Python `s.strip()`: remove leading and trailing whitespace. -/
def stripLC (l : List Nat) : List Nat :=
  ((l.dropWhile isWs).reverse.dropWhile isWs).reverse

/-- Decimal digits (as code points) of a natural number, most significant
first; the digit expansion used by Python's `str(int)`. -/
def natDigitsAux : Nat → Nat → List Nat
  | 0, n => [48 + n % 10]
  | fuel + 1, n => if n < 10 then [48 + n] else natDigitsAux fuel (n / 10) ++ [48 + n % 10]

def natDigits (n : Nat) : List Nat := natDigitsAux n n

/-- Python `str(n)` for an integer `n`. -/
def intToStr (n : Int) : List Nat :=
  if n < 0 then 45 :: natDigits n.natAbs else natDigits n.toNat

/-- Parse a nonempty all-digit string to a natural number (the digit part
of Python's `int()` literal grammar). -/
def parseNatDigits (l : List Nat) : Option Nat :=
  if l ≠ [] ∧ l.all isDigitCp then
    some (l.foldl (fun a d => a * 10 + (d - 48)) 0)
  else none

/-- Python `int(s)` on an already-stripped token: optional sign then
decimal digits (ASCII digits suffice for the tokens this program
produces and the claims exercise). `none` models a raised `ValueError`. -/
def parseIntTok (l : List Nat) : Option Int :=
  match l with
  | [] => none
  | c :: rest =>
    if c = 43 then (parseNatDigits rest).map Int.ofNat
    else if c = 45 then (parseNatDigits rest).map (fun m => -(m : Int))
    else (parseNatDigits l).map Int.ofNat

/-- ASCII lower-casing, for the case-insensitive `inf`/`nan` forms of
Python's `float()` grammar. -/
def lowerCp (c : Nat) : Nat := if 65 ≤ c ∧ c ≤ 90 then c + 32 else c

/-- Split at the first occurrence of a separator satisfying `p`;
returns the part before and, when found, the part after. -/
def breakAt (p : Nat → Bool) : List Nat → List Nat × Option (List Nat)
  | [] => ([], none)
  | c :: r =>
    if p c then ([], some r)
    else
      match breakAt p r with
      | (a, b) => (c :: a, b)

/-- Nonempty digit string test. -/
def digits1 (l : List Nat) : Bool := !l.isEmpty && l.all isDigitCp

/-- Mantissa part of Python's `float()` grammar:
`digits+ | digits* '.' digits*` with at least one digit overall. -/
def floatMant (m : List Nat) : Bool :=
  match breakAt (fun c => c = 46) m with
  | (ip, none) => digits1 ip
  | (ip, some fp) => ip.all isDigitCp && fp.all isDigitCp && !(ip.isEmpty && fp.isEmpty)

/-- Exponent part of Python's `float()` grammar: optional sign then
nonempty digits. -/
def floatExp (e : List Nat) : Bool :=
  match e with
  | c :: rest => if c = 43 || c = 45 then digits1 rest else digits1 e
  | [] => false

/-- Unsigned part of Python's `float()` literal grammar. -/
def floatUnsigned (l : List Nat) : Bool :=
  let low := l.map lowerCp
  if low = strLit ("inf") || low = strLit ("infinity") || low = strLit ("nan") then true
  else
    match breakAt (fun c => c = 101 || c = 69) l with
    | (m, none) => floatMant m
    | (m, some e) => floatMant m && floatExp e

/-- Python `float(s)` acceptance on an already-stripped token; `false`
models a raised `ValueError`. -/
def isFloatTok (l : List Nat) : Bool :=
  match l with
  | c :: rest => if c = 43 || c = 45 then floatUnsigned rest else floatUnsigned l
  | [] => false

/-! ## UTF-8 codec

`message.encode('utf-8')` on the send path and
`receive_buffer[4:].decode('utf-8')` on the receive path. -/

/-- Valid Unicode scalar value (what a Python text string holds and
UTF-8 can encode): below the surrogate range or between it and the
Unicode maximum. -/
def validCp (n : Nat) : Prop := n < 0xD800 ∨ (0xE000 ≤ n ∧ n < 0x110000)

instance (n : Nat) : Decidable (validCp n) := by
  unfold validCp
  infer_instance

/-- UTF-8 bytes of one code point. -/
def utf8EncodeChar (n : Nat) : List Nat :=
  if n < 0x80 then [n]
  else if n < 0x800 then [0xC0 + n / 64, 0x80 + n % 64]
  else if n < 0x10000 then [0xE0 + n / 4096, 0x80 + n / 64 % 64, 0x80 + n % 64]
  else [0xF0 + n / 262144, 0x80 + n / 4096 % 64, 0x80 + n / 64 % 64, 0x80 + n % 64]

/-- `s.encode('utf-8')`. -/
def utf8Encode (s : List Nat) : List Nat := (s.map utf8EncodeChar).flatten

/-- UTF-8 continuation byte test. -/
def isCont (b : Nat) : Bool := 0x80 ≤ b && b < 0xC0

/-- Strict UTF-8 decoding worker, one unit of fuel per decoded
character: rejects overlong forms, surrogates, values above the Unicode
maximum and truncated sequences.  `.error .unicodeError` models a raised
`UnicodeDecodeError`.  Any fuel at least the number of encoded
characters gives the same result; `utf8Decode` passes the byte count. -/
def utf8DecodeAux : Nat → List Nat → Except PyErr (List Nat)
  | 0, l => if l = [] then .ok [] else .error .unicodeError
  | fuel + 1, l =>
    match l with
    | [] => .ok []
    | b :: r =>
      if b < 0x80 then (utf8DecodeAux fuel r).map (b :: ·)
      else if b < 0xC2 then .error .unicodeError
      else if b < 0xE0 then
        match r with
        | b1 :: r1 =>
          if isCont b1 then (utf8DecodeAux fuel r1).map (((b - 0xC0) * 64 + (b1 - 0x80)) :: ·)
          else .error .unicodeError
        | [] => .error .unicodeError
      else if b < 0xF0 then
        match r with
        | b1 :: b2 :: r2 =>
          let n := (b - 0xE0) * 4096 + (b1 - 0x80) * 64 + (b2 - 0x80)
          if isCont b1 && isCont b2 && decide (0x800 ≤ n) && decide (validCp n) then
            (utf8DecodeAux fuel r2).map (n :: ·)
          else .error .unicodeError
        | _ => .error .unicodeError
      else if b < 0xF5 then
        match r with
        | b1 :: b2 :: b3 :: r3 =>
          let n := (b - 0xF0) * 262144 + (b1 - 0x80) * 4096 + (b2 - 0x80) * 64 + (b3 - 0x80)
          if isCont b1 && isCont b2 && isCont b3 && decide (0x10000 ≤ n) && decide (n < 0x110000)
          then (utf8DecodeAux fuel r3).map (n :: ·)
          else .error .unicodeError
        | _ => .error .unicodeError
      else .error .unicodeError

/-- `bytes.decode('utf-8')`: a byte string never encodes more characters
than it has bytes, so the byte count is always enough fuel. -/
def utf8Decode (l : List Nat) : Except PyErr (List Nat) := utf8DecodeAux l.length l

/-! ## Frame codec

`struct.pack('>i', n)` / `struct.unpack(">i", buf[:4])` and the
accumulate-and-extract loop of `_receiver`. -/

/-- Big-endian 4-byte encoding, `struct.pack('>i', n)` for `0 ≤ n < 2^31`
(the only range the sender uses; other values raise in `struct`). -/
def pack32 (n : Nat) : List Nat :=
  [n / 16777216 % 256, n / 65536 % 256, n / 256 % 256, n % 256]

/-- Big-endian unsigned value of up to four bytes (each taken mod 256,
as real received bytes are below 256). -/
def toU32 (l : List Nat) : Nat := l.foldl (fun a b => a * 256 + b % 256) 0

/-- Two's-complement reading of a 32-bit unsigned value: the `i` format
of `struct.unpack` is a *signed* 32-bit integer. -/
def toSigned (u : Nat) : Int :=
  if u < 2147483648 then (u : Int) else (u : Int) - 4294967296

/-- `struct.unpack(">i", receive_buffer[:4])[0]`. -/
def unpackInt (l : List Nat) : Int := toSigned (toU32 (l.take 4))

/-- One frame on the wire: length prefix plus body bytes
(`struct.pack('>i', len(message_data)) + message_data`). -/
def encodeFrame (body : List Nat) : List Nat := pack32 body.length ++ body

/-- The complete-frame condition of `_receiver`:
`len(receive_buffer) >= 4` and `len(receive_buffer) == 4 + received_data_len`
with the length prefix read as a signed 32-bit integer. -/
def frameFires (l : List Nat) : Prop :=
  4 ≤ l.length ∧ (l.length : Int) = 4 + unpackInt l

instance (l : List Nat) : Decidable (frameFires l) := by
  unfold frameFires
  infer_instance

/-- One byte of the `_receiver` buffer loop: append the byte; if the
buffer now holds a complete frame, emit the body bytes and reset the
buffer to empty. -/
def recvStep (buf : List Nat) (b : Nat) : List Nat × Option (List Nat) :=
  let buf' := buf ++ [b]
  if frameFires buf' then ([], some (buf'.drop 4)) else (buf', none)

/-- The frame codec part of `_receiver` run over a byte stream
(one byte per `recv(1)` call): final buffer and emitted frame bodies. -/
def runDecoder : List Nat → List Nat → List Nat × List (List Nat)
  | buf, [] => (buf, [])
  | buf, b :: rest =>
    match recvStep buf b with
    | (buf', none) => runDecoder buf' rest
    | (_, some body) =>
      match runDecoder [] rest with
      | (bf, outs) => (bf, body :: outs)

/-! ## Message grammar (inbound) -/

/-- A parsed sensor value: `int(...)` result or, on `ValueError`,
`float(...)` result.  The float is carried as the token it was parsed
from; the double `float()` actually returns is the one nearest the
token's decimal value (`tokenScaled`). -/
inductive PyNum where
  | pint (n : Int)
  | pfloat (tok : List Nat)
deriving DecidableEq, Repr

/-- `try: int(value) except ValueError: float(value)` on a stripped
token; a token neither grammar accepts models the uncaught
`ValueError` raised by `float`. -/
def parseValue (tok : List Nat) : Except PyErr PyNum :=
  match parseIntTok tok with
  | some n => .ok (.pint n)
  | none => if isFloatTok tok then .ok (.pfloat tok) else .error .valueError

/-- The `while len(sensor_data):` pair-consuming loop: pop a name, pop a
value (popping from an empty list models the `IndexError` on an odd
segment count), parse the stripped value. -/
def parsePairs : List (List Nat) → Except PyErr (List (List Nat × PyNum))
  | [] => .ok []
  | [_] => .error .indexError
  | k :: v :: rest => do
    let num ← parseValue (stripLC v)
    let ps ← parsePairs rest
    .ok ((k, num) :: ps)

/-- Handler invocations observable from `_receiver`. -/
inductive Event where
  | broadcast (msg : List Nat)
  | sensorUpdate (pairs : List (List Nat × PyNum))
deriving DecidableEq, Repr

/-- `received_data.replace('broadcast ', '', 1).replace('"', '', 2)`. -/
def parseBroadcastBody (body : List Nat) : List Nat :=
  replaceDel (replaceDel body (strLit ("broadcast ")) 1) [34] 2

/-- `received_data.replace('sensor-update ', '', 1).split('"')` with the
leading element popped, then the pair loop. -/
def parseSensorBody (body : List Nat) : Except PyErr (List (List Nat × PyNum)) :=
  parsePairs ((pysplit 34 (replaceDel body (strLit ("sensor-update ")) 1)).drop 1)

/-- Processing of one decoded frame body in `_receiver`: the broadcast
branch fires on prefix `broadcast`, the sensor branch on prefix
`sensor-update`; any other body is ignored.  An error from the sensor
parse propagates (nothing in `_receiver` catches `ValueError` or
`IndexError`). -/
def processFrame (body : List Nat) : Except PyErr (List Event) :=
  let evs := if startsWith (strLit ("broadcast")) body
             then [Event.broadcast (parseBroadcastBody body)]
             else []
  if startsWith (strLit ("sensor-update")) body then
    match parseSensorBody body with
    | .error e => .error e
    | .ok ps => .ok (evs ++ [Event.sensorUpdate ps])
  else .ok evs

/-- The full `_receiver` loop over a byte stream: frame codec, UTF-8
decode of each complete body, grammar dispatch.  Returns the emitted
handler events, the final buffer, and the uncaught error (if any) that
terminated the thread; bytes after a fatal error are never read. -/
def runReceiver : List Nat → List Nat → List Event × List Nat × Option PyErr
  | buf, [] => ([], buf, none)
  | buf, b :: rest =>
    match recvStep buf b with
    | (buf', none) => runReceiver buf' rest
    | (_, some bodyBytes) =>
      match utf8Decode bodyBytes with
      | .error e => ([], buf ++ [b], some e)
      | .ok body =>
        match processFrame body with
        | .error e => ([], buf ++ [b], some e)
        | .ok evs =>
          match runReceiver [] rest with
          | (evs', bf, er) => (evs ++ evs', bf, er)

/-! ## Public send operations and argument validation -/

/-- Python values as they reach the public operations' type checks. -/
inductive PyVal where
  | vstr (s : List Nat)
  | vint (n : Int)
  | vfloat (tok : List Nat)
  | vbool (b : Bool)
  | vnone
deriving DecidableEq, Repr

/-- `isinstance(x, unicode) or isinstance(x, str)`. -/
def pyIsStr : PyVal → Bool
  | .vstr _ => true
  | _ => false

/-- `isinstance(x, int)`; `bool` is a subtype of `int` in Python. -/
def pyIsInt : PyVal → Bool
  | .vint _ => true
  | .vbool _ => true
  | _ => false

/-- `isinstance(value, int) or isinstance(value, float)`. -/
def pyIsNumeric : PyVal → Bool
  | .vint _ => true
  | .vfloat _ => true
  | .vbool _ => true
  | _ => false

/-- Python `str(value)` for the values `send_sensor_update` accepts:
integers print in decimal, booleans print as `True`/`False`, and a float
prints as the token `.vfloat` carries — which is faithful exactly when
that token is what Python 2.7's `str()` prints for the float, i.e.
`py2FloatStr` of its dyadic value.  The 12-digit precision loss of that
printing lives in `py2FloatStr`, not here. -/
def pyStrOfNum : PyVal → List Nat
  | .vint n => intToStr n
  | .vfloat tok => tok
  | .vbool true => strLit ("True")
  | .vbool false => strLit ("False")
  | _ => []

/-- Decimal value of a digit string (code points 48..57). -/
def digitsToNat (l : List Nat) : Nat := l.foldl (fun a d => a * 10 + (d - 48)) 0

/-- Remove trailing `0` digits (the `%g` trailing-zero strip). -/
def dropTrailingZeros (l : List Nat) : List Nat :=
  (l.reverse.dropWhile (fun c => c = 48)).reverse

/-- Round `a / b` to the nearest natural, ties to even (the rounding
`printf`-style formatting applies to the decimal digits). -/
def roundHalfEvenN (a b : Nat) : Nat :=
  let f := a / b
  let r := a % b
  if 2 * r < b then f
  else if b < 2 * r then f + 1
  else if f % 2 = 0 then f else f + 1

/-- Largest `d` with `10 ^ d * den ≤ n`, for `den ≤ n` (fuel-bounded;
800 covers the double range by a wide margin). -/
def decExpPosN : Nat → Nat → Nat → Nat
  | 0, _, _ => 0
  | fuel + 1, n, den => if n < 10 * den then 0 else 1 + decExpPosN fuel n (10 * den)

/-- Smallest `k ≥ 1` with `den ≤ 10 ^ k * n`, for `0 < n < den`
(fuel-bounded). -/
def decExpNegN : Nat → Nat → Nat → Nat
  | 0, _, _ => 1
  | fuel + 1, n, den => if den ≤ 10 * n then 1 else 1 + decExpNegN fuel (10 * n) den

/-- Decimal exponent of the positive fraction `n / den`: the unique `d`
with `10 ^ d ≤ n / den < 10 ^ (d + 1)`. -/
def decExpFrac (n den : Nat) : Int :=
  if den ≤ n then (decExpPosN 800 n den : Int) else -((decExpNegN 800 n den : Int))

/-- First 12 significant decimal digits of the positive fraction
`n / den` (rounded to nearest, ties to even) together with its decimal
exponent, carrying the decimal overflow `999… → 1000…` into the
exponent. -/
def py2SigDigits (n den : Nat) : Nat × Int :=
  let d := decExpFrac n den
  let s :=
    if 0 ≤ 11 - d then roundHalfEvenN (n * 10 ^ (11 - d).toNat) den
    else roundHalfEvenN n (den * 10 ^ (d - 11).toNat)
  if s = 10 ^ 12 then (10 ^ 11, d + 1) else (s, d)

/-- Rendering of a positive fraction under `%.12g`, with CPython's
`str(float)` rule of appending `.0` when neither `.` nor `e` appears:
fixed notation for decimal exponents in `[-4, 12)`, exponential
notation (two-digit, signed exponent) outside. -/
def py2ReprPos (n den : Nat) : List Nat :=
  let sd := py2SigDigits n den
  let D := natDigits sd.1
  let e := sd.2
  if -4 ≤ e ∧ e < 12 then
    if 0 ≤ e then
      let ip := D.take (e.toNat + 1)
      let fp := dropTrailingZeros (D.drop (e.toNat + 1))
      if fp.isEmpty then ip ++ strLit (".0") else ip ++ [46] ++ fp
    else
      strLit ("0.") ++ List.replicate ((-e).toNat - 1) 48 ++ dropTrailingZeros D
  else
    let fp := dropTrailingZeros (D.drop 1)
    let mant := if fp.isEmpty then D.take 1 else D.take 1 ++ [46] ++ fp
    let esign : List Nat := if e < 0 then [45] else [43]
    let eabs := natDigits e.natAbs
    let epad := if eabs.length < 2 then 48 :: eabs else eabs
    mant ++ [101] ++ esign ++ epad

/-- Python 2.7 `str(float)` on the exact value `md / 2 ^ pe` of an IEEE
double (every finite double is such a dyadic rational): CPython 2.7
formats with `'%.12g'`, i.e. rounds the true binary value to at most 12
significant decimal digits — a lossy rendering, unlike Python 3's
shortest round-tripping repr.  `str(math.pi)` is `3.14159265359`. -/
def py2FloatStr (md : Int) (pe : Nat) : List Nat :=
  if md = 0 then strLit ("0.0")
  else if md < 0 then 45 :: py2ReprPos md.natAbs (2 ^ pe)
  else py2ReprPos md.natAbs (2 ^ pe)

/-- Signed exponent part of a float token, as an integer. -/
def tokenExpZ (e : List Nat) : Option Int :=
  match e with
  | 43 :: r => if digits1 r then some ((digitsToNat r : Int)) else none
  | 45 :: r => if digits1 r then some (-((digitsToNat r : Int))) else none
  | _ => if digits1 e then some ((digitsToNat e : Int)) else none

/-- Mantissa of a float token as scaled integers: digits value and the
number of fraction digits, denoting `value / 10 ^ shift`. -/
def tokenMantScaled (m : List Nat) : Option (Nat × Nat) :=
  match breakAt (fun c => c = 46) m with
  | (ip, none) => if digits1 ip then some (digitsToNat ip, 0) else none
  | (ip, some fp) =>
    if ip.all isDigitCp && fp.all isDigitCp && !(ip.isEmpty && fp.isEmpty) then
      some (digitsToNat (ip ++ fp), fp.length)
    else none

/-- Unsigned float token combined with its exponent part, still as
scaled integers denoting `num / 10 ^ shift`. -/
def tokenScaledUnsigned (l : List Nat) : Option (Int × Nat) :=
  match breakAt (fun c => c = 101 || c = 69) l with
  | (m, none) => (tokenMantScaled m).map (fun p => ((p.1 : Int), p.2))
  | (m, some e) =>
    match tokenMantScaled m, tokenExpZ e with
    | some p, some k =>
      let sh : Int := (p.2 : Int) - k
      if 0 ≤ sh then some ((p.1 : Int), sh.toNat)
      else some ((p.1 : Int) * ((10 ^ (-sh).toNat : Nat) : Int), 0)
    | _, _ => none

/-- Exact decimal value of a finite float token, as scaled integers:
`some (num, shift)` denotes the rational `num / 10 ^ shift`.  The real
`float(token)` returns the IEEE double nearest this value (within half
an ulp), which is all the precision argument about the round trip
needs. -/
def tokenScaled (tok : List Nat) : Option (Int × Nat) :=
  match tok with
  | 43 :: r => tokenScaledUnsigned r
  | 45 :: r => (tokenScaledUnsigned r).map (fun p => (-p.1, p.2))
  | _ => tokenScaledUnsigned tok

/-- The parsed counterpart of an outbound numeric value: integers come
back as integers after the round trip, floats as the very token that was
put on the wire.  This is a token-level correspondence: equal tokens do
not imply the parsed double equals the original double, because
Python 2.7's `str(float)` prints only 12 significant digits (see
`py2FloatStr` and the sensor-update precision counterexample).
Only used for integer and float values. -/
def pyNumOf : PyVal → PyNum
  | .vint n => .pint n
  | .vfloat tok => .pfloat tok
  | _ => .pint 0

/-- Side conditions under which one sensor value round-trips through the
wire grammar at the token level: an integer, or a float whose printed
token is accepted by `float()`, rejected by `int()`, ASCII, quote-free,
and has no whitespace at either end — all true of every Python 2.7
`str(float)` output (`py2FloatStr`). -/
def roundNum : PyVal → Prop
  | .vint _ => True
  | .vfloat tok =>
      isFloatTok tok = true ∧ parseIntTok tok = none ∧ tok ≠ [] ∧
      isWs (tok.headD 0) = false ∧ isWs (tok.reverse.headD 0) = false ∧
      (∀ c ∈ tok, c ≠ 34 ∧ c < 128)
  | _ => False

instance : DecidablePred roundNum := by
  intro v
  cases v <;> (unfold roundNum; infer_instance)

/-- Side conditions on a sensor or broadcast name: no double quote (the
grammar cannot carry one) and valid Unicode scalars (what a Python text
string encodes). -/
def goodName (n : List Nat) : Prop := ∀ c ∈ n, c ≠ 34 ∧ validCp c

instance (n : List Nat) : Decidable (goodName n) := by
  unfold goodName
  infer_instance

/-- Body text built by `send_broadcast`: `'broadcast "' + message + '"'`. -/
def broadcastBody (message : List Nat) : List Nat :=
  strLit ("broadcast \x22") ++ message ++ [34]

/-- `send_broadcast(message)`: type-check the argument, then encode and
frame.  `.ok` carries the exact bytes handed to `sock.sendall`; the
`ValueError` is raised before any socket write. -/
def send_broadcast (message : PyVal) : Except PyErr (List Nat) :=
  match message with
  | .vstr s => .ok (encodeFrame (utf8Encode (broadcastBody s)))
  | _ => .error .valueError

/-- The message-building loop of `send_sensor_update`: per pair,
type-check the value (raising `ValueError` on a non-numeric one, before
any socket write) and append `'"' + name + '" ' + str(value) + ' '`. -/
def buildSensorChunks : List (List Nat × PyVal) → Except PyErr (List Nat)
  | [] => .ok []
  | (name, v) :: rest =>
    if pyIsNumeric v then
      (buildSensorChunks rest).map
        (fun tail => [34] ++ name ++ [34, 32] ++ pyStrOfNum v ++ [32] ++ tail)
    else .error .valueError

/-- The same chunks without the validation (total helper for stating
what the success path writes). -/
def sensorChunks : List (List Nat × PyVal) → List Nat
  | [] => []
  | (name, v) :: rest =>
    [34] ++ name ++ [34, 32] ++ pyStrOfNum v ++ [32] ++ sensorChunks rest

/-- Body text built by `send_sensor_update` on the success path. -/
def sensorBody (pairs : List (List Nat × PyVal)) : List Nat :=
  strLit ("sensor-update ") ++ sensorChunks pairs

/-- `send_sensor_update(**sensor_data)` with the name/value pairs in
call order: validate, build the body, frame it.  `.ok` carries the
exact bytes handed to `sock.sendall`. -/
def send_sensor_update (pairs : List (List Nat × PyVal)) : Except PyErr (List Nat) :=
  match buildSensorChunks pairs with
  | .error e => .error e
  | .ok chunks => .ok (encodeFrame (utf8Encode (strLit ("sensor-update ") ++ chunks)))

/-- The argument-validation part of `connect(host, port)`, which runs
before any socket is created: host must be a string, port an integer. -/
def connect_check (host port : PyVal) : Except PyErr Unit :=
  if pyIsStr host then
    if pyIsInt port then .ok () else .error .valueError
  else .error .valueError

/-! ## Connection facade state -/

/-- The instance attributes relevant to the connected-flag claims. -/
structure ConnState where
  connected : Bool
  receiverAlive : Bool
  threadRunning : Bool
deriving DecidableEq, Repr

/-- State-changing happenings on a `RemoteSensorConnection`:
a successful `connect`, a `disconnect` call (success path), and the
receiver thread dying of an uncaught exception.  `_receiver` assigns no
instance attribute, so `recvFatal` only marks the thread as gone. -/
inductive FacadeOp where
  | connectOk
  | disconnectOp
  | recvFatal
deriving DecidableEq, Repr

/-- Effect of each happening on the instance state, from the assignments
in `connect`, `disconnect`, `_start_receiver`, `_stop_receiver` and
`_receiver`. -/
def applyOp (s : ConnState) : FacadeOp → ConnState
  | .connectOk => { connected := true, receiverAlive := true, threadRunning := true }
  | .disconnectOp =>
    if s.connected then { connected := false, receiverAlive := false, threadRunning := false }
    else s
  | .recvFatal => { s with threadRunning := false }

/-- `is_connected()`: returns `self._connected`. -/
def is_connected (s : ConnState) : Bool := s.connected

/-! ## Framing lemmas -/

theorem recvStep_of_fires {buf : List Nat} {b : Nat} (h : frameFires (buf ++ [b])) :
    recvStep buf b = ([], some ((buf ++ [b]).drop 4)) := by
  simp [recvStep, h]

theorem recvStep_of_quiet {buf : List Nat} {b : Nat} (h : ¬ frameFires (buf ++ [b])) :
    recvStep buf b = (buf ++ [b], none) := by
  simp [recvStep, h]

theorem toU32_pack32 {n : Nat} (h : n < 4294967296) : toU32 (pack32 n) = n := by
  simp only [toU32, pack32, List.foldl]
  omega

theorem pack32_length (n : Nat) : (pack32 n).length = 4 := by
  simp [pack32]

theorem unpackInt_pack32 {n : Nat} (h : n < 2147483648) : unpackInt (pack32 n) = (n : Int) := by
  have ht : (pack32 n).take 4 = pack32 n := by
    simp [pack32]
  have hu : toU32 (pack32 n) = n := toU32_pack32 (by omega)
  simp only [unpackInt, ht, hu, toSigned, if_pos h]

theorem take4_append {body : List Nat} {n : Nat} :
    (pack32 n ++ body).take 4 = pack32 n := by
  have := List.take_left (pack32 n) body
  rwa [pack32_length n] at this

theorem drop4_append {body : List Nat} {n : Nat} :
    (pack32 n ++ body).drop 4 = body := by
  have := List.drop_left (pack32 n) body
  rwa [pack32_length n] at this

theorem unpackInt_frame {body : List Nat} {n : Nat} (h : n < 2147483648) :
    unpackInt (pack32 n ++ body) = (n : Int) := by
  have ht : (pack32 n ++ body).take 4 = pack32 n := take4_append
  have h2 : ((pack32 n).take 4) = pack32 n := by simp [pack32]
  simp only [unpackInt, ht]
  have := unpackInt_pack32 (n := n) h
  simpa [unpackInt, h2] using this

theorem frame_length (body : List Nat) :
    (pack32 body.length ++ body).length = 4 + body.length := by
  simp [pack32]
  omega

theorem frameFires_frame {body : List Nat} (h : body.length < 2147483648) :
    frameFires (pack32 body.length ++ body) := by
  refine ⟨?_, ?_⟩
  · rw [frame_length]
    omega
  · rw [unpackInt_frame h, frame_length]
    push_cast
    ring

theorem frameFires_iff_of_ge {l : List Nat} (h4 : 4 ≤ l.length) :
    frameFires l ↔ (l.length : Int) = 4 + unpackInt l := by
  constructor
  · exact fun h => h.2
  · exact fun h => ⟨h4, h⟩

theorem not_fires_partial_frame {body : List Nat} {k : Nat}
    (h : body.length < 2147483648) (hk : k < 4 + body.length) :
    ¬ frameFires ((pack32 body.length ++ body).take k) := by
  intro hf
  have hlenf : (pack32 body.length ++ body).length = 4 + body.length := frame_length body
  have hlen : ((pack32 body.length ++ body).take k).length = k := by
    rw [List.length_take, hlenf]
    omega
  have h4 : 4 ≤ k := by
    have := hf.1
    omega
  have htake : ((pack32 body.length ++ body).take k).take 4 = pack32 body.length := by
    rw [List.take_take]
    have : min 4 k = 4 := by omega
    rw [this, take4_append]
  have hun : unpackInt ((pack32 body.length ++ body).take k) = (body.length : Int) := by
    simp only [unpackInt, htake]
    have h2 : ((pack32 body.length).take 4) = pack32 body.length := by simp [pack32]
    have := unpackInt_pack32 (n := body.length) h
    simpa [unpackInt, h2] using this
  have := hf.2
  rw [hlen, hun] at this
  omega

theorem runDecoder_shift :
    ∀ (xs ys buf : List Nat),
      (∀ k, k < xs.length → ¬ frameFires (buf ++ xs.take (k + 1))) →
      runDecoder buf (xs ++ ys) = runDecoder (buf ++ xs) ys := by
  intro xs
  induction xs with
  | nil => intro ys buf _; simp
  | cons b rest ih =>
    intro ys buf hq
    have h0 : ¬ frameFires (buf ++ [b]) := by
      have := hq 0 (by simp)
      simpa using this
    simp only [List.cons_append, runDecoder, recvStep_of_quiet h0, List.append_eq]
    have harr : buf ++ [b] ++ rest = buf ++ b :: rest := by simp
    have := ih ys (buf ++ [b]) (fun k hk => by
      have := hq (k + 1) (by simp; omega)
      simpa [List.take_cons, List.append_assoc] using this)
    rw [harr] at this
    rw [this]

theorem runReceiver_shift :
    ∀ (xs ys buf : List Nat),
      (∀ k, k < xs.length → ¬ frameFires (buf ++ xs.take (k + 1))) →
      runReceiver buf (xs ++ ys) = runReceiver (buf ++ xs) ys := by
  intro xs
  induction xs with
  | nil => intro ys buf _; simp
  | cons b rest ih =>
    intro ys buf hq
    have h0 : ¬ frameFires (buf ++ [b]) := by
      have := hq 0 (by simp)
      simpa using this
    simp only [List.cons_append, runReceiver, recvStep_of_quiet h0, List.append_eq]
    have harr : buf ++ [b] ++ rest = buf ++ b :: rest := by simp
    have := ih ys (buf ++ [b]) (fun k hk => by
      have := hq (k + 1) (by simp; omega)
      simpa [List.take_cons, List.append_assoc] using this)
    rw [harr] at this
    rw [this]

theorem runDecoder_quiet (xs buf : List Nat)
    (h : ∀ k, k < xs.length → ¬ frameFires (buf ++ xs.take (k + 1))) :
    runDecoder buf xs = (buf ++ xs, []) := by
  have := runDecoder_shift xs [] buf h
  simpa [runDecoder] using this

theorem runReceiver_quiet (xs buf : List Nat)
    (h : ∀ k, k < xs.length → ¬ frameFires (buf ++ xs.take (k + 1))) :
    runReceiver buf xs = ([], buf ++ xs, none) := by
  have := runReceiver_shift xs [] buf h
  simpa [runReceiver] using this

theorem frame_ne_nil (body : List Nat) : pack32 body.length ++ body ≠ [] := by
  intro h
  have := frame_length body
  rw [h] at this
  simp only [List.length_nil] at this
  omega

theorem frame_partial_quiet {body : List Nat} (h : body.length < 2147483648) :
    ∀ k, k < (pack32 body.length ++ body).dropLast.length →
      ¬ frameFires (([] : List Nat) ++ (pack32 body.length ++ body).dropLast.take (k + 1)) := by
  intro k hk
  have hlenf := frame_length body
  have hlA : (pack32 body.length ++ body).dropLast.length = 4 + body.length - 1 := by
    rw [List.length_dropLast, hlenf]
  have htk : (pack32 body.length ++ body).dropLast.take (k + 1)
      = (pack32 body.length ++ body).take (k + 1) := by
    rw [List.dropLast_eq_take, List.take_take]
    congr 1
    rw [hlenf]
    rw [hlA] at hk
    omega
  rw [List.nil_append, htk]
  apply not_fires_partial_frame h
  rw [hlA] at hk
  omega

theorem runDecoder_feed_frame {body rest : List Nat} (h : body.length < 2147483648) :
    runDecoder [] (encodeFrame body ++ rest)
      = ((runDecoder [] rest).1, body :: (runDecoder [] rest).2) := by
  have hne := frame_ne_nil body
  have hsplit := List.dropLast_append_getLast hne
  set F := pack32 body.length ++ body with hF
  have h1 : encodeFrame body ++ rest = F.dropLast ++ (F.getLast hne :: rest) := by
    rw [encodeFrame, ← hF]
    rw [show F.getLast hne :: rest = [F.getLast hne] ++ rest from rfl, ← List.append_assoc, hsplit]
  rw [h1]
  rw [runDecoder_shift _ _ _ (frame_partial_quiet h)]
  have hfire : frameFires (F.dropLast ++ [F.getLast hne]) := by
    rw [hsplit]
    exact frameFires_frame h
  simp only [List.nil_append, runDecoder, recvStep_of_fires hfire]
  rw [hsplit]
  have hdrop : F.drop 4 = body := drop4_append
  rw [hdrop]

theorem runReceiver_feed_frame {bytes rest : List Nat} {body : List Nat} {evs : List Event}
    (h : bytes.length < 2147483648)
    (hdec : utf8Decode bytes = .ok body)
    (hproc : processFrame body = .ok evs) :
    runReceiver [] (encodeFrame bytes ++ rest)
      = (evs ++ (runReceiver [] rest).1, (runReceiver [] rest).2.1, (runReceiver [] rest).2.2) := by
  have hne := frame_ne_nil bytes
  have hsplit := List.dropLast_append_getLast hne
  set F := pack32 bytes.length ++ bytes with hF
  have h1 : encodeFrame bytes ++ rest = F.dropLast ++ (F.getLast hne :: rest) := by
    rw [encodeFrame, ← hF]
    rw [show F.getLast hne :: rest = [F.getLast hne] ++ rest from rfl, ← List.append_assoc, hsplit]
  rw [h1]
  rw [runReceiver_shift _ _ _ (frame_partial_quiet h)]
  have hfire : frameFires (F.dropLast ++ [F.getLast hne]) := by
    rw [hsplit]
    exact frameFires_frame h
  simp only [List.nil_append, runReceiver, recvStep_of_fires hfire]
  rw [hsplit]
  have hdrop : F.drop 4 = bytes := drop4_append
  rw [hdrop]
  simp only [hdec, hproc]

theorem runReceiver_feed_frame_err {bytes : List Nat} {rest : List Nat} {e : PyErr}
    (h : bytes.length < 2147483648)
    (herr : (utf8Decode bytes).bind processFrame = .error e) :
    runReceiver [] (encodeFrame bytes ++ rest)
      = ([], encodeFrame bytes, some e) := by
  have hne := frame_ne_nil bytes
  have hsplit := List.dropLast_append_getLast hne
  set F := pack32 bytes.length ++ bytes with hF
  have h1 : encodeFrame bytes ++ rest = F.dropLast ++ (F.getLast hne :: rest) := by
    rw [encodeFrame, ← hF]
    rw [show F.getLast hne :: rest = [F.getLast hne] ++ rest from rfl, ← List.append_assoc, hsplit]
  rw [h1]
  rw [runReceiver_shift _ _ _ (frame_partial_quiet h)]
  have hfire : frameFires (F.dropLast ++ [F.getLast hne]) := by
    rw [hsplit]
    exact frameFires_frame h
  simp only [List.nil_append, runReceiver, recvStep_of_fires hfire]
  rw [hsplit]
  have hdrop : F.drop 4 = bytes := drop4_append
  rw [hdrop]
  cases hd : utf8Decode bytes with
  | error e' =>
    rw [hd] at herr
    simp only [Except.bind] at herr
    cases herr
    simp only [hd]
    rfl
  | ok body =>
    rw [hd] at herr
    simp only [Except.bind] at herr
    simp only [hd, herr]
    rfl

/-! ## UTF-8 round-trip lemmas -/

theorem utf8DecodeAux_encodeChar (f n : Nat) (hv : validCp n) (rest : List Nat) :
    utf8DecodeAux (f + 1) (utf8EncodeChar n ++ rest) = (utf8DecodeAux f rest).map (n :: ·) := by
  by_cases h1 : n < 0x80
  · have he : utf8EncodeChar n = [n] := by rw [utf8EncodeChar, if_pos h1]
    rw [he]
    simp only [List.cons_append, List.nil_append]
    simp [utf8DecodeAux, h1]
  · by_cases h2 : n < 0x800
    · have he : utf8EncodeChar n = [0xC0 + n / 64, 0x80 + n % 64] := by
        rw [utf8EncodeChar, if_neg h1, if_pos h2]
      rw [he]
      simp only [List.cons_append, List.nil_append]
      have c1 : ¬ (0xC0 + n / 64 < 0x80) := by omega
      have c2 : ¬ (0xC0 + n / 64 < 0xC2) := by omega
      have c3 : 0xC0 + n / 64 < 0xE0 := by omega
      have hcont : isCont (0x80 + n % 64) = true := by
        simp only [isCont, Bool.and_eq_true, decide_eq_true_eq]
        omega
      have hval : (0xC0 + n / 64 - 0xC0) * 64 + (0x80 + n % 64 - 0x80) = n := by omega
      simp only [utf8DecodeAux, c1, c2, c3, hcont, if_true, if_false, ite_true, ite_false, hval]
    · by_cases h3 : n < 0x10000
      · have he : utf8EncodeChar n = [0xE0 + n / 4096, 0x80 + n / 64 % 64, 0x80 + n % 64] := by
          rw [utf8EncodeChar, if_neg h1, if_neg h2, if_pos h3]
        rw [he]
        simp only [List.cons_append, List.nil_append]
        have c1 : ¬ (0xE0 + n / 4096 < 0x80) := by omega
        have c2 : ¬ (0xE0 + n / 4096 < 0xC2) := by omega
        have c3 : ¬ (0xE0 + n / 4096 < 0xE0) := by omega
        have c4 : 0xE0 + n / 4096 < 0xF0 := by omega
        have hval : (0xE0 + n / 4096 - 0xE0) * 4096 + (0x80 + n / 64 % 64 - 0x80) * 64
            + (0x80 + n % 64 - 0x80) = n := by omega
        have hc1 : isCont (0x80 + n / 64 % 64) = true := by
          simp only [isCont, Bool.and_eq_true, decide_eq_true_eq]
          omega
        have hc2 : isCont (0x80 + n % 64) = true := by
          simp only [isCont, Bool.and_eq_true, decide_eq_true_eq]
          omega
        have hc3 : decide (0x800 ≤ (0xE0 + n / 4096 - 0xE0) * 4096 + (0x80 + n / 64 % 64 - 0x80) * 64
            + (0x80 + n % 64 - 0x80)) = true := by
          rw [hval]
          simp only [decide_eq_true_eq]
          omega
        have hc4 : decide (validCp ((0xE0 + n / 4096 - 0xE0) * 4096 + (0x80 + n / 64 % 64 - 0x80) * 64
            + (0x80 + n % 64 - 0x80))) = true := by
          rw [hval]
          simp only [decide_eq_true_eq]
          exact hv
        simp only [utf8DecodeAux, c1, c2, c3, c4, hc1, hc2, hc3, hc4, Bool.and_self, Bool.and_true,
          Bool.true_and, if_true, if_false, ite_true, ite_false, hval]
        have hfin : (decide (2048 ≤ n) && decide (validCp n)) = true := by
          simp only [Bool.and_eq_true, decide_eq_true_eq]
          exact ⟨by omega, hv⟩
        rw [hfin]
        simp
      · have h4 : n < 0x110000 := by
          rcases hv with h | ⟨_, h⟩ <;> omega
        have he : utf8EncodeChar n
            = [0xF0 + n / 262144, 0x80 + n / 4096 % 64, 0x80 + n / 64 % 64, 0x80 + n % 64] := by
          rw [utf8EncodeChar, if_neg h1, if_neg h2, if_neg h3]
        rw [he]
        simp only [List.cons_append, List.nil_append]
        have c1 : ¬ (0xF0 + n / 262144 < 0x80) := by omega
        have c2 : ¬ (0xF0 + n / 262144 < 0xC2) := by omega
        have c3 : ¬ (0xF0 + n / 262144 < 0xE0) := by omega
        have c4 : ¬ (0xF0 + n / 262144 < 0xF0) := by omega
        have c5 : 0xF0 + n / 262144 < 0xF5 := by omega
        have hval : (0xF0 + n / 262144 - 0xF0) * 262144 + (0x80 + n / 4096 % 64 - 0x80) * 4096
            + (0x80 + n / 64 % 64 - 0x80) * 64 + (0x80 + n % 64 - 0x80) = n := by omega
        have hc1 : isCont (0x80 + n / 4096 % 64) = true := by
          simp only [isCont, Bool.and_eq_true, decide_eq_true_eq]
          omega
        have hc2 : isCont (0x80 + n / 64 % 64) = true := by
          simp only [isCont, Bool.and_eq_true, decide_eq_true_eq]
          omega
        have hc3 : isCont (0x80 + n % 64) = true := by
          simp only [isCont, Bool.and_eq_true, decide_eq_true_eq]
          omega
        have hc4 : decide (0x10000 ≤ (0xF0 + n / 262144 - 0xF0) * 262144
            + (0x80 + n / 4096 % 64 - 0x80) * 4096
            + (0x80 + n / 64 % 64 - 0x80) * 64 + (0x80 + n % 64 - 0x80)) = true := by
          rw [hval]
          simp only [decide_eq_true_eq]
          omega
        have hc5 : decide ((0xF0 + n / 262144 - 0xF0) * 262144 + (0x80 + n / 4096 % 64 - 0x80) * 4096
            + (0x80 + n / 64 % 64 - 0x80) * 64 + (0x80 + n % 64 - 0x80) < 0x110000) = true := by
          rw [hval]
          simp only [decide_eq_true_eq]
          omega
        simp only [utf8DecodeAux, c1, c2, c3, c4, c5, hc1, hc2, hc3, hc4, hc5, Bool.and_self,
          Bool.and_true, Bool.true_and, if_true, if_false, ite_true, ite_false, hval]
        have hfin : (decide (65536 ≤ n) && decide (n < 1114112)) = true := by
          simp only [Bool.and_eq_true, decide_eq_true_eq]
          exact ⟨by omega, by omega⟩
        rw [hfin]
        simp

theorem utf8DecodeAux_encode (s : List Nat) :
    ∀ f, s.length ≤ f → (∀ c ∈ s, validCp c) → utf8DecodeAux f (utf8Encode s) = .ok s := by
  induction s with
  | nil =>
    intro f _ _
    cases f <;> simp [utf8DecodeAux, utf8Encode]
  | cons c cs ih =>
    intro f hf hv
    cases f with
    | zero => simp at hf
    | succ g =>
      have hs : utf8Encode (c :: cs) = utf8EncodeChar c ++ utf8Encode cs := by
        simp [utf8Encode]
      rw [hs, utf8DecodeAux_encodeChar g c (hv c (by simp)) _]
      rw [ih g (by simp at hf; omega) (fun x hx => hv x (by simp [hx]))]
      rfl

theorem utf8EncodeChar_length_pos (n : Nat) : 1 ≤ (utf8EncodeChar n).length := by
  rw [utf8EncodeChar]
  split_ifs <;> simp

theorem utf8Encode_length_ge (s : List Nat) : s.length ≤ (utf8Encode s).length := by
  induction s with
  | nil => simp [utf8Encode]
  | cons c cs ih =>
    have hs : utf8Encode (c :: cs) = utf8EncodeChar c ++ utf8Encode cs := by
      simp [utf8Encode]
    rw [hs]
    simp only [List.length_cons, List.length_append]
    have := utf8EncodeChar_length_pos c
    omega

theorem utf8Decode_encode (s : List Nat) (hv : ∀ c ∈ s, validCp c) :
    utf8Decode (utf8Encode s) = .ok s :=
  utf8DecodeAux_encode s (utf8Encode s).length (utf8Encode_length_ge s) hv

/-! ## Decimal integer printing/parsing lemmas -/

theorem natDigitsAux_congr :
    ∀ f1 f2 n : Nat, n ≤ f1 → n ≤ f2 → natDigitsAux f1 n = natDigitsAux f2 n := by
  intro f1
  induction f1 with
  | zero =>
    intro f2 n h1 _
    have hn : n = 0 := by omega
    subst hn
    cases f2 <;> simp [natDigitsAux]
  | succ f1 ih =>
    intro f2 n h1 h2
    cases f2 with
    | zero =>
      have hn : n = 0 := by omega
      subst hn
      simp [natDigitsAux]
    | succ f2' =>
      by_cases hn : n < 10
      · simp [natDigitsAux, hn]
      · simp only [natDigitsAux, if_neg hn]
        rw [ih f2' (n / 10) (by omega) (by omega)]

theorem natDigits_eq (n : Nat) :
    natDigits n = if n < 10 then [48 + n] else natDigits (n / 10) ++ [48 + n % 10] := by
  by_cases h : n < 10
  · rw [if_pos h]
    cases n with
    | zero => simp [natDigits, natDigitsAux]
    | succ m => simp [natDigits, natDigitsAux, h]
  · rw [if_neg h]
    cases n with
    | zero => omega
    | succ m =>
      rw [natDigits, natDigits]
      simp only [natDigitsAux, if_neg h]
      rw [natDigitsAux_congr m ((m + 1) / 10) ((m + 1) / 10) (by omega) (by omega)]

theorem natDigits_mem {n c : Nat} (hc : c ∈ natDigits n) : 48 ≤ c ∧ c ≤ 57 := by
  induction n using Nat.strong_induction_on with
  | _ n ih =>
    rw [natDigits_eq] at hc
    split at hc
    · rename_i h
      simp only [List.mem_singleton] at hc
      omega
    · rename_i h
      rcases List.mem_append.mp hc with h1 | h1
      · exact ih (n / 10) (by omega) h1
      · simp only [List.mem_singleton] at h1
        omega

theorem natDigits_ne_nil (n : Nat) : natDigits n ≠ [] := by
  rw [natDigits_eq]
  split <;> simp

theorem natDigits_concat (n : Nat) : ∃ ys d, natDigits n = ys ++ [d] ∧ 48 ≤ d ∧ d ≤ 57 := by
  rw [natDigits_eq]
  split
  · exact ⟨[], 48 + n, by simp, by omega, by omega⟩
  · exact ⟨natDigits (n / 10), 48 + n % 10, rfl, by omega, by omega⟩

theorem natDigits_foldl (n : Nat) :
    (natDigits n).foldl (fun a d => a * 10 + (d - 48)) 0 = n := by
  induction n using Nat.strong_induction_on with
  | _ n ih =>
    rw [natDigits_eq]
    split
    · rename_i h
      simp only [List.foldl_cons, List.foldl_nil]
      omega
    · rename_i h
      rw [List.foldl_append]
      rw [ih (n / 10) (by omega)]
      simp only [List.foldl_cons, List.foldl_nil]
      omega

theorem parseNatDigits_natDigits (n : Nat) : parseNatDigits (natDigits n) = some n := by
  rw [parseNatDigits, if_pos, natDigits_foldl]
  refine ⟨natDigits_ne_nil n, ?_⟩
  rw [List.all_eq_true]
  intro c hc
  have := natDigits_mem hc
  simp only [isDigitCp, Bool.and_eq_true, decide_eq_true_eq]
  omega

theorem intToStr_head_digit_of_nonneg {k : Int} (hk : 0 ≤ k) :
    ∃ c rest, intToStr k = c :: rest ∧ 48 ≤ c ∧ c ≤ 57 := by
  rw [intToStr, if_neg (by omega)]
  cases h : natDigits k.toNat with
  | nil => exact absurd h (natDigits_ne_nil _)
  | cons c rest =>
    have : c ∈ natDigits k.toNat := by rw [h]; simp
    exact ⟨c, rest, rfl, (natDigits_mem this).1, (natDigits_mem this).2⟩

theorem parseIntTok_intToStr (k : Int) : parseIntTok (intToStr k) = some k := by
  by_cases hk : k < 0
  · rw [intToStr, if_pos hk]
    rw [parseIntTok]
    rw [if_neg (by omega), if_pos rfl]
    rw [parseNatDigits_natDigits]
    simp only [Option.bind_some, Option.map_some', Option.map_eq_map, Option.some_bind,
      Option.bind_eq_bind, pure, Option.pure_def]
    simp only [Option.map_some', Option.some.injEq]
    omega
  · obtain ⟨c, rest, hcr, hc1, hc2⟩ := intToStr_head_digit_of_nonneg (by omega : 0 ≤ k)
    rw [hcr, parseIntTok, if_neg (by omega), if_neg (by omega), ← hcr]
    rw [intToStr, if_neg hk, parseNatDigits_natDigits]
    simp only [Option.bind_some, Option.map_some', Option.map_eq_map, Option.some_bind,
      Option.bind_eq_bind, pure, Option.pure_def]
    simp only [Option.map_some', Option.some.injEq]
    simp only [Int.ofNat_eq_natCast]
    omega

theorem intToStr_mem {k : Int} {c : Nat} (hc : c ∈ intToStr k) :
    (48 ≤ c ∧ c ≤ 57) ∨ c = 45 := by
  rw [intToStr] at hc
  split at hc
  · rcases List.mem_cons.mp hc with h | h
    · right; exact h
    · left; exact natDigits_mem h
  · left; exact natDigits_mem hc

theorem intToStr_ne_nil (k : Int) : intToStr k ≠ [] := by
  rw [intToStr]
  split
  · simp
  · exact natDigits_ne_nil _

theorem isWs_false_of_digit_or_minus {c : Nat} (h : (48 ≤ c ∧ c ≤ 57) ∨ c = 45) :
    isWs c = false := by
  have h1 : c ≠ 32 := by omega
  have h2 : c ≠ 9 := by omega
  have h3 : c ≠ 10 := by omega
  have h4 : c ≠ 13 := by omega
  have h5 : c ≠ 11 := by omega
  have h6 : c ≠ 12 := by omega
  simp [isWs, h1, h2, h3, h4, h5, h6]

theorem intToStr_head_not_ws (k : Int) : isWs ((intToStr k).headD 0) = false := by
  rw [intToStr]
  split
  · simp [isWs]
  · cases h : natDigits k.toNat with
    | nil => exact absurd h (natDigits_ne_nil _)
    | cons c rest =>
      have : c ∈ natDigits k.toNat := by rw [h]; simp
      have hb := natDigits_mem this
      simp only [List.headD_cons]
      exact isWs_false_of_digit_or_minus (Or.inl hb)

theorem intToStr_last_not_ws (k : Int) : isWs ((intToStr k).reverse.headD 0) = false := by
  have hlast : ∃ ys d, intToStr k = ys ++ [d] ∧ 48 ≤ d ∧ d ≤ 57 := by
    rw [intToStr]
    split
    · obtain ⟨ys, d, h, h1, h2⟩ := natDigits_concat (Int.natAbs k)
      exact ⟨45 :: ys, d, by rw [h]; rfl, h1, h2⟩
    · exact natDigits_concat _
  obtain ⟨ys, d, h, h1, h2⟩ := hlast
  rw [h, List.reverse_append]
  simp only [List.reverse_cons, List.reverse_nil, List.nil_append, List.cons_append,
    List.headD_cons]
  exact isWs_false_of_digit_or_minus (Or.inl ⟨h1, h2⟩)

/-! ## String-operation lemmas -/

theorem startsWith_append (p r : List Nat) : startsWith p (p ++ r) = true := by
  induction p with
  | nil => rfl
  | cons c cs ih => simp [startsWith, ih]

theorem startsWith_cons_ne {a b : Nat} (h : a ≠ b) (p s : List Nat) :
    startsWith (a :: p) (b :: s) = false := by
  simp [startsWith, h]

theorem replaceDelAux_congr :
    ∀ f1 f2 (s pat : List Nat) (n : Nat), s.length ≤ f1 → s.length ≤ f2 →
      replaceDelAux f1 s pat n = replaceDelAux f2 s pat n := by
  intro f1
  induction f1 with
  | zero =>
    intro f2 s pat n h1 _
    have hs : s = [] := List.eq_nil_of_length_eq_zero (by omega)
    subst hs
    cases f2 <;> cases n <;> simp [replaceDelAux]
  | succ f1 ih =>
    intro f2 s pat n h1 h2
    cases f2 with
    | zero =>
      have hs : s = [] := List.eq_nil_of_length_eq_zero (by omega)
      subst hs
      cases n <;> simp [replaceDelAux]
    | succ f2' =>
      cases n with
      | zero => simp [replaceDelAux]
      | succ n' =>
        cases s with
        | nil => simp [replaceDelAux]
        | cons c r =>
          simp only [replaceDelAux]
          by_cases hc : startsWith pat (c :: r) = true ∧ pat ≠ []
          · rw [if_pos hc, if_pos hc]
            have hpat : pat.length ≠ 0 := by
              intro h0
              exact hc.2 (List.eq_nil_of_length_eq_zero h0)
            apply ih
            · simp only [List.length_drop, List.length_cons]
              simp only [List.length_cons] at h1
              omega
            · simp only [List.length_drop, List.length_cons]
              simp only [List.length_cons] at h2
              omega
          · rw [if_neg hc, if_neg hc]
            congr 1
            apply ih
            · simp only [List.length_cons] at h1
              omega
            · simp only [List.length_cons] at h2
              omega

theorem replaceDel_zero (s pat : List Nat) : replaceDel s pat 0 = s := by
  cases s <;> rfl

theorem replaceDel_delete {pat rest : List Nat} {n : Nat} (hne : pat ≠ []) :
    replaceDel (pat ++ rest) pat (n + 1) = replaceDel rest pat n := by
  cases pat with
  | nil => exact absurd rfl hne
  | cons p ps =>
    rw [replaceDel]
    rw [show ((p :: ps) ++ rest).length = ((ps ++ rest).length) + 1 by simp]
    rw [List.cons_append]
    simp only [replaceDelAux]
    rw [if_pos ⟨by rw [← List.cons_append]; exact startsWith_append (p :: ps) rest, hne⟩]
    rw [show (p :: (ps ++ rest)).drop (p :: ps).length = rest by
      rw [← List.cons_append, List.drop_left]]
    rw [replaceDel]
    exact replaceDelAux_congr _ _ rest (p :: ps) n (by simp) (by omega)

theorem replaceDel_cons_skip {c : Nat} {r pat : List Nat} {n : Nat}
    (h : startsWith pat (c :: r) = false) :
    replaceDel (c :: r) pat (n + 1) = c :: replaceDel r pat (n + 1) := by
  rw [replaceDel]
  simp only [List.length_cons, replaceDelAux]
  rw [if_neg (fun hc => by simp [h] at hc)]
  rfl

theorem replaceDel_append_noq {q : Nat} {xs : List Nat} (hx : ∀ c ∈ xs, c ≠ q) :
    ∀ (ys : List Nat) (n : Nat), replaceDel (xs ++ ys) [q] (n + 1) = xs ++ replaceDel ys [q] (n + 1) := by
  induction xs with
  | nil => intro ys n; simp
  | cons c xs' ih =>
    intro ys n
    have hc : c ≠ q := hx c (by simp)
    have hsw : startsWith [q] (c :: (xs' ++ ys)) = false :=
      startsWith_cons_ne (fun hq => hc hq.symm) [] _
    rw [List.cons_append, replaceDel_cons_skip hsw]
    rw [ih (fun x hxx => hx x (by simp [hxx])) ys n]
    rfl

theorem replaceDel_q_head {q : Nat} {ys : List Nat} {n : Nat} :
    replaceDel (q :: ys) [q] (n + 1) = replaceDel ys [q] n := by
  have := @replaceDel_delete [q] ys n (by simp)
  simpa using this

theorem pysplit_ne_nil (sep : Nat) (l : List Nat) : pysplit sep l ≠ [] := by
  cases l with
  | nil => simp [pysplit]
  | cons c rest =>
    cases h : pysplit sep rest with
    | nil => simp [pysplit, h]
    | cons t ts => by_cases hc : c = sep <;> simp [pysplit, h, hc]

theorem pysplit_cons_sep (sep : Nat) (l : List Nat) :
    pysplit sep (sep :: l) = [] :: pysplit sep l := by
  rw [pysplit]
  cases h : pysplit sep l with
  | nil => exact absurd h (pysplit_ne_nil sep l)
  | cons t ts => simp

theorem pysplit_cons_ne {c sep : Nat} (h : c ≠ sep) (l : List Nat) {t : List Nat}
    {ts : List (List Nat)} (hl : pysplit sep l = t :: ts) :
    pysplit sep (c :: l) = (c :: t) :: ts := by
  rw [pysplit, hl]
  simp [h]

theorem pysplit_append_noq {sep : Nat} {xs : List Nat} (hx : ∀ c ∈ xs, c ≠ sep) :
    ∀ {ys : List Nat} {t : List Nat} {ts : List (List Nat)}, pysplit sep ys = t :: ts →
      pysplit sep (xs ++ ys) = (xs ++ t) :: ts := by
  induction xs with
  | nil => intro ys t ts h; simpa using h
  | cons c xs' ih =>
    intro ys t ts h
    have hc : c ≠ sep := hx c (by simp)
    have := ih (fun x hxx => hx x (by simp [hxx])) h
    rw [List.cons_append, pysplit_cons_ne hc _ this]
    rfl

theorem pysplit_nil_eq (sep : Nat) : pysplit sep [] = [[]] := rfl

theorem dropWhile_not_head {l : List Nat} (hne : l ≠ []) (hh : isWs (l.headD 0) = false) :
    l.dropWhile isWs = l := by
  cases l with
  | nil => exact absurd rfl hne
  | cons c r =>
    simp only [List.headD_cons] at hh
    rw [List.dropWhile_cons, hh]
    simp

theorem strip_pad {t : List Nat} (hne : t ≠ []) (hh : isWs (t.headD 0) = false)
    (hl : isWs (t.reverse.headD 0) = false) : stripLC (32 :: t ++ [32]) = t := by
  have hws32 : isWs 32 = true := by simp [isWs]
  rw [stripLC]
  have h1 : (32 :: t ++ [32]).dropWhile isWs = t ++ [32] := by
    rw [show (32 : Nat) :: t ++ [32] = 32 :: (t ++ [32]) from rfl]
    rw [List.dropWhile_cons, hws32]
    simp only [if_true, ite_true]
    apply dropWhile_not_head
    · simp
    · cases t with
      | nil => exact absurd rfl hne
      | cons c r => simpa using hh
  rw [h1]
  have h2 : (t ++ [32]).reverse = 32 :: t.reverse := by
    rw [List.reverse_append]
    rfl
  rw [h2, List.dropWhile_cons, hws32]
  simp only [if_true, ite_true]
  rw [dropWhile_not_head (by simpa using hne) hl, List.reverse_reverse]

/-! ## Message-grammar lemmas -/

theorem strLit_broadcast_quote :
    strLit ("broadcast \x22") = strLit ("broadcast ") ++ [34] := by decide

theorem strLit_broadcast_split :
    strLit ("broadcast \x22") = strLit ("broadcast") ++ [32, 34] := by decide

theorem strLit_sensor_split :
    strLit ("sensor-update ") = strLit ("sensor-update") ++ [32] := by decide

theorem replaceDel_delete_one {pat rest : List Nat} (hne : pat ≠ []) :
    replaceDel (pat ++ rest) pat 1 = rest := by
  have := @replaceDel_delete pat rest 0 hne
  simpa [replaceDel_zero] using this

theorem replaceDel_q_head_two {ys : List Nat} :
    replaceDel (34 :: ys) [34] 2 = replaceDel ys [34] 1 := by
  have := @replaceDel_q_head 34 ys 1
  simpa using this

theorem replaceDel_q_head_one {ys : List Nat} :
    replaceDel (34 :: ys) [34] 1 = ys := by
  have := @replaceDel_q_head 34 ys 0
  simpa [replaceDel_zero] using this

theorem replaceDel_noq_one {xs ys : List Nat} (hx : ∀ c ∈ xs, c ≠ 34) :
    replaceDel (xs ++ ys) [34] 1 = xs ++ replaceDel ys [34] 1 := by
  have := replaceDel_append_noq (q := 34) hx ys 0
  simpa using this

theorem parseBroadcastBody_roundtrip {name : List Nat} (h : ∀ c ∈ name, c ≠ 34) :
    parseBroadcastBody (broadcastBody name) = name := by
  rw [parseBroadcastBody, broadcastBody, strLit_broadcast_quote]
  rw [List.append_assoc, List.append_assoc]
  rw [replaceDel_delete_one (by decide)]
  rw [show ([34] : List Nat) ++ (name ++ [34]) = 34 :: (name ++ [34]) from rfl]
  rw [replaceDel_q_head_two]
  rw [replaceDel_noq_one h]
  rw [show replaceDel [34] [34] 1 = [] from rfl]
  simp

theorem startsWith_broadcast_body (name : List Nat) :
    startsWith (strLit ("broadcast")) (broadcastBody name) = true := by
  rw [broadcastBody, strLit_broadcast_split, List.append_assoc, List.append_assoc]
  exact startsWith_append _ _

theorem not_startsWith_sensor_broadcast_body (name : List Nat) :
    startsWith (strLit ("sensor-update")) (broadcastBody name) = false := by
  rw [broadcastBody]
  rw [show strLit ("broadcast \x22") ++ name ++ [34]
      = 98 :: (strLit ("roadcast \x22") ++ name ++ [34]) from rfl]
  rw [show strLit ("sensor-update") = 115 :: strLit ("ensor-update") from rfl]
  exact startsWith_cons_ne (by omega) _ _

theorem startsWith_sensor_body (chunks : List Nat) :
    startsWith (strLit ("sensor-update")) (strLit ("sensor-update ") ++ chunks) = true := by
  rw [strLit_sensor_split, List.append_assoc]
  exact startsWith_append _ _

theorem not_startsWith_broadcast_sensor_body (chunks : List Nat) :
    startsWith (strLit ("broadcast")) (strLit ("sensor-update ") ++ chunks) = false := by
  rw [show strLit ("sensor-update ") ++ chunks
      = 115 :: (strLit ("ensor-update ") ++ chunks) from rfl]
  rw [show strLit ("broadcast") = 98 :: strLit ("roadcast") from rfl]
  exact startsWith_cons_ne (by omega) _ _

theorem pyStrOfNum_no_quote {v : PyVal} (h : roundNum v) :
    ∀ c ∈ pyStrOfNum v, c ≠ 34 := by
  cases v with
  | vint k =>
    intro c hc
    have := intToStr_mem (k := k) hc
    omega
  | vfloat tok =>
    intro c hc
    exact ((h.2.2.2.2.2 c hc).1)
  | vbool b => exact h.elim
  | vstr s => exact h.elim
  | vnone => exact h.elim

theorem parseValue_strip_seg {v : PyVal} (h : roundNum v) :
    parseValue (stripLC (32 :: pyStrOfNum v ++ [32])) = .ok (pyNumOf v) := by
  cases v with
  | vint k =>
    have hs : stripLC (32 :: intToStr k ++ [32]) = intToStr k :=
      strip_pad (intToStr_ne_nil k) (intToStr_head_not_ws k) (intToStr_last_not_ws k)
    show parseValue (stripLC (32 :: intToStr k ++ [32])) = .ok (.pint k)
    rw [hs, parseValue, parseIntTok_intToStr]
  | vfloat tok =>
    obtain ⟨hf, hi, hne, hh, hl, _⟩ := h
    have hs : stripLC (32 :: tok ++ [32]) = tok := strip_pad hne hh hl
    show parseValue (stripLC (32 :: tok ++ [32])) = .ok (.pfloat tok)
    rw [hs, parseValue, hi, hf]
    simp
  | vbool b => exact h.elim
  | vstr s => exact h.elim
  | vnone => exact h.elim

theorem sensor_split_head (ps : List (List Nat × PyVal)) :
    ∃ ts, pysplit 34 (sensorChunks ps) = [] :: ts := by
  cases ps with
  | nil => exact ⟨[], rfl⟩
  | cons p ps' =>
    obtain ⟨n, v⟩ := p
    have hchunk : sensorChunks ((n, v) :: ps')
        = 34 :: (n ++ (34 :: ((32 :: pyStrOfNum v ++ [32]) ++ sensorChunks ps'))) := by
      simp [sensorChunks, List.append_assoc]
    rw [hchunk, pysplit_cons_sep]
    exact ⟨_, rfl⟩

theorem parseSensor_chunks (ps : List (List Nat × PyVal))
    (h : ∀ p ∈ ps, (∀ c ∈ p.1, c ≠ 34) ∧ roundNum p.2) :
    parsePairs ((pysplit 34 (sensorChunks ps)).drop 1)
      = .ok (ps.map (fun p => (p.1, pyNumOf p.2))) := by
  induction ps with
  | nil => rfl
  | cons p ps' ih =>
    obtain ⟨n, v⟩ := p
    have hn : ∀ c ∈ n, c ≠ 34 := (h (n, v) (by simp)).1
    have hv : roundNum v := (h (n, v) (by simp)).2
    have htok : ∀ c ∈ pyStrOfNum v, c ≠ 34 := pyStrOfNum_no_quote hv
    obtain ⟨ts0, hts⟩ := sensor_split_head ps'
    have hchunk : sensorChunks ((n, v) :: ps')
        = 34 :: (n ++ (34 :: ((32 :: pyStrOfNum v ++ [32]) ++ sensorChunks ps'))) := by
      simp [sensorChunks, List.append_assoc]
    have hvseg_noq : ∀ c ∈ (32 :: pyStrOfNum v ++ [32]), c ≠ 34 := by
      intro c hc
      rcases List.mem_cons.mp hc with h1 | h1
      · omega
      · rcases List.mem_append.mp h1 with h2 | h2
        · exact htok c h2
        · simp at h2; omega
    have hsplit_inner : pysplit 34 ((32 :: pyStrOfNum v ++ [32]) ++ sensorChunks ps')
        = ((32 :: pyStrOfNum v ++ [32]) ++ []) :: ts0 := pysplit_append_noq hvseg_noq hts
    have hsplit2 : pysplit 34 (34 :: ((32 :: pyStrOfNum v ++ [32]) ++ sensorChunks ps'))
        = [] :: ((32 :: pyStrOfNum v ++ [32]) ++ []) :: ts0 := by
      rw [pysplit_cons_sep, hsplit_inner]
    have hsplit3 : pysplit 34 (n ++ (34 :: ((32 :: pyStrOfNum v ++ [32]) ++ sensorChunks ps')))
        = (n ++ []) :: ((32 :: pyStrOfNum v ++ [32]) ++ []) :: ts0 :=
      pysplit_append_noq hn hsplit2
    have hsplit4 : pysplit 34 (sensorChunks ((n, v) :: ps'))
        = [] :: (n ++ []) :: ((32 :: pyStrOfNum v ++ [32]) ++ []) :: ts0 := by
      rw [hchunk, pysplit_cons_sep, hsplit3]
    rw [hsplit4]
    simp only [List.append_nil, List.drop_succ_cons, List.drop_zero]
    have hih : parsePairs ts0 = .ok (ps'.map fun p => (p.1, pyNumOf p.2)) := by
      have := ih (fun q hq => h q (by simp [hq]))
      rw [hts] at this
      simpa using this
    rw [parsePairs, parseValue_strip_seg hv, hih]
    rfl

theorem parseSensorBody_roundtrip (pairs : List (List Nat × PyVal))
    (h : ∀ p ∈ pairs, (∀ c ∈ p.1, c ≠ 34) ∧ roundNum p.2) :
    parseSensorBody (sensorBody pairs) = .ok (pairs.map (fun p => (p.1, pyNumOf p.2))) := by
  rw [parseSensorBody, sensorBody, replaceDel_delete_one (by decide)]
  exact parseSensor_chunks pairs h

theorem processFrame_broadcast {name : List Nat} (h : ∀ c ∈ name, c ≠ 34) :
    processFrame (broadcastBody name) = .ok [Event.broadcast name] := by
  rw [processFrame]
  rw [startsWith_broadcast_body, not_startsWith_sensor_broadcast_body]
  simp [parseBroadcastBody_roundtrip h]

theorem processFrame_sensor (pairs : List (List Nat × PyVal))
    (h : ∀ p ∈ pairs, (∀ c ∈ p.1, c ≠ 34) ∧ roundNum p.2) :
    processFrame (sensorBody pairs)
      = .ok [Event.sensorUpdate (pairs.map (fun p => (p.1, pyNumOf p.2)))] := by
  rw [processFrame, sensorBody]
  rw [startsWith_sensor_body, not_startsWith_broadcast_sensor_body]
  have h2 := parseSensorBody_roundtrip pairs h
  rw [sensorBody] at h2
  simp [h2]

theorem processFrame_ignored {body : List Nat}
    (h1 : startsWith (strLit ("broadcast")) body = false)
    (h2 : startsWith (strLit ("sensor-update")) body = false) :
    processFrame body = .ok [] := by
  rw [processFrame, h1, h2]
  simp

/-! ## Negative-length-prefix lemmas -/

theorem toU32_foldl_lt :
    ∀ (l : List Nat) (a : Nat),
      List.foldl (fun x b => x * 256 + b % 256) a l < (a + 1) * 256 ^ l.length := by
  intro l
  induction l with
  | nil => intro a; simp
  | cons b r ih =>
    intro a
    rw [List.foldl_cons]
    have h1 := ih (a * 256 + b % 256)
    have h2 : (a * 256 + b % 256 + 1) * 256 ^ r.length ≤ (a + 1) * 256 ^ (b :: r).length := by
      rw [List.length_cons, pow_succ]
      have hb : a * 256 + b % 256 + 1 ≤ (a + 1) * 256 := by
        have : b % 256 < 256 := Nat.mod_lt _ (by omega)
        nlinarith
      calc (a * 256 + b % 256 + 1) * 256 ^ r.length
          ≤ ((a + 1) * 256) * 256 ^ r.length := Nat.mul_le_mul_right _ hb
        _ = (a + 1) * (256 ^ r.length * 256) := by ring
    exact lt_of_lt_of_le h1 h2

theorem toU32_lt {l : List Nat} (h : l.length ≤ 4) : toU32 l < 4294967296 := by
  have h1 := toU32_foldl_lt l 0
  simp only [Nat.zero_add, one_mul] at h1
  have h2 : (256 : Nat) ^ l.length ≤ 4294967296 := by
    calc (256 : Nat) ^ l.length ≤ 256 ^ 4 := Nat.pow_le_pow_right (by omega) h
      _ = 4294967296 := by norm_num
  rw [toU32]
  exact lt_of_lt_of_le h1 h2

theorem neg_prefix_no_fire {stream : List Nat} (h4 : 4 ≤ stream.length)
    (hm : 2147483648 ≤ toU32 (stream.take 4)) :
    ∀ k, k < stream.length → ¬ frameFires (([] : List Nat) ++ stream.take (k + 1)) := by
  intro k hk hf
  rw [List.nil_append] at hf
  have hlen : (stream.take (k + 1)).length = k + 1 := by
    rw [List.length_take]
    omega
  have h4k : 4 ≤ k + 1 := by
    have := hf.1
    omega
  have htt : (stream.take (k + 1)).take 4 = stream.take 4 := by
    rw [List.take_take]
    congr 1
    omega
  have hu_lt : toU32 (stream.take 4) < 4294967296 :=
    toU32_lt (by rw [List.length_take]; omega)
  have hun : unpackInt (stream.take (k + 1)) = (toU32 (stream.take 4) : Int) - 4294967296 := by
    rw [unpackInt, htt, toSigned, if_neg (by omega)]
  have hcontr := hf.2
  rw [hlen, hun] at hcontr
  omega

/-! ## Character-validity and send-path helpers -/

theorem validCp_of_lt {c : Nat} (h : c < 55296) : validCp c := Or.inl h

theorem mem_validCp_append {l1 l2 : List Nat} (h1 : ∀ c ∈ l1, validCp c)
    (h2 : ∀ c ∈ l2, validCp c) : ∀ c ∈ l1 ++ l2, validCp c := by
  intro c hc
  rcases List.mem_append.mp hc with h | h
  · exact h1 c h
  · exact h2 c h

theorem validCp_of_ascii {l : List Nat} (h : ∀ c ∈ l, c < 128) : ∀ c ∈ l, validCp c :=
  fun c hc => validCp_of_lt (by have := h c hc; omega)

theorem pyIsNumeric_of_roundNum {v : PyVal} (h : roundNum v) : pyIsNumeric v = true := by
  cases v with
  | vint k => rfl
  | vfloat tok => rfl
  | vbool b => exact h.elim
  | vstr s => exact h.elim
  | vnone => exact h.elim

theorem pyStrOfNum_ascii {v : PyVal} (h : roundNum v) : ∀ c ∈ pyStrOfNum v, c < 128 := by
  cases v with
  | vint k =>
    intro c hc
    have := intToStr_mem (k := k) hc
    omega
  | vfloat tok =>
    intro c hc
    exact (h.2.2.2.2.2 c hc).2
  | vbool b => exact h.elim
  | vstr s => exact h.elim
  | vnone => exact h.elim

theorem broadcastBody_valid {name : List Nat} (h : goodName name) :
    ∀ c ∈ broadcastBody name, validCp c := by
  rw [broadcastBody]
  exact mem_validCp_append
    (mem_validCp_append (by decide) (fun c hc => (h c hc).2))
    (by decide)

theorem sensorChunks_valid {pairs : List (List Nat × PyVal)}
    (h : ∀ p ∈ pairs, goodName p.1 ∧ roundNum p.2) :
    ∀ c ∈ sensorChunks pairs, validCp c := by
  induction pairs with
  | nil =>
    intro c hc
    simp [sensorChunks] at hc
  | cons p ps ih =>
    obtain ⟨n, v⟩ := p
    rw [sensorChunks]
    refine mem_validCp_append (mem_validCp_append (mem_validCp_append (mem_validCp_append
      (mem_validCp_append (by decide) ?_) (by decide)) ?_) (by decide)) ?_
    · exact fun c hc => ((h (n, v) (by simp)).1 c hc).2
    · exact validCp_of_ascii (pyStrOfNum_ascii (h (n, v) (by simp)).2)
    · exact ih (fun q hq => h q (by simp [hq]))

theorem sensorBody_valid {pairs : List (List Nat × PyVal)}
    (h : ∀ p ∈ pairs, goodName p.1 ∧ roundNum p.2) :
    ∀ c ∈ sensorBody pairs, validCp c := by
  rw [sensorBody]
  exact mem_validCp_append (by decide) (sensorChunks_valid h)

theorem buildSensorChunks_ok {pairs : List (List Nat × PyVal)}
    (h : ∀ p ∈ pairs, pyIsNumeric p.2 = true) :
    buildSensorChunks pairs = .ok (sensorChunks pairs) := by
  induction pairs with
  | nil => rfl
  | cons p ps ih =>
    obtain ⟨n, v⟩ := p
    rw [buildSensorChunks, if_pos (h (n, v) (by simp))]
    rw [ih (fun q hq => h q (by simp [hq]))]
    rfl

theorem buildSensorChunks_err {pairs : List (List Nat × PyVal)}
    (h : ∃ p ∈ pairs, pyIsNumeric p.2 = false) :
    buildSensorChunks pairs = .error .valueError := by
  induction pairs with
  | nil => simp at h
  | cons p ps ih =>
    obtain ⟨n, v⟩ := p
    by_cases hv : pyIsNumeric v = true
    · rw [buildSensorChunks, if_pos hv]
      have : ∃ p ∈ ps, pyIsNumeric p.2 = false := by
        obtain ⟨q, hq, hqf⟩ := h
        rcases List.mem_cons.mp hq with h1 | h1
        · rw [h1] at hqf
          simp only at hqf
          rw [hqf] at hv
          simp at hv
        · exact ⟨q, h1, hqf⟩
      rw [ih this]
      rfl
    · rw [buildSensorChunks, if_neg hv]

/-! ## Helper lemmas for the framing claim -/

theorem runDecoder_frames :
    ∀ frames : List (List Nat), (∀ f ∈ frames, f.length < 2147483648) →
      runDecoder [] ((frames.map encodeFrame).flatten) = ([], frames) := by
  intro frames
  induction frames with
  | nil => intro _; rfl
  | cons f fs ih =>
    intro h
    simp only [List.map_cons, List.flatten_cons]
    rw [runDecoder_feed_frame (h f (by simp))]
    rw [ih (fun g hg => h g (by simp [hg]))]

theorem runDecoder_partial_prefix {body : List Nat} (hb : body.length < 2147483648)
    {k : Nat} (hk : k < (encodeFrame body).length) :
    runDecoder [] ((encodeFrame body).take k) = ((encodeFrame body).take k, []) := by
  have hfl : (encodeFrame body).length = 4 + body.length := frame_length body
  have hq : ∀ j, j < ((encodeFrame body).take k).length →
      ¬ frameFires (([] : List Nat) ++ ((encodeFrame body).take k).take (j + 1)) := by
    intro j hj
    rw [List.length_take] at hj
    have hjk : j < k := by omega
    have htt : ((encodeFrame body).take k).take (j + 1) = (encodeFrame body).take (j + 1) := by
      rw [List.take_take]
      congr 1
      omega
    rw [List.nil_append, htt]
    rw [encodeFrame]
    exact not_fires_partial_frame hb (by omega)
  have := runDecoder_quiet ((encodeFrame body).take k) [] hq
  simpa using this

/-! ## Claim theorems -/

/-- Claim C1 (code bug): a sensor-update frame body whose value token is
neither a valid integer nor a valid float (here `abc`), or whose
quote-split yields an odd segment count (here body `sensor-update "a`),
raises an uncaught `ValueError` / `IndexError` inside `_receiver`; the
exception is not caught by the `except (OSError, socket.error)` clause,
so the receive loop terminates and a following well-formed frame is
never processed — contradicting the specification, which requires such a
frame to be dropped or surfaced without terminating the loop. -/
theorem receiver_thread_dies_on_malformed_value :
    runReceiver [] (encodeFrame (utf8Encode (strLit ("sensor-update \x22a\x22 abc ")))
        ++ encodeFrame (utf8Encode (strLit ("broadcast \x22ok\x22"))))
      = ([], encodeFrame (utf8Encode (strLit ("sensor-update \x22a\x22 abc "))),
          some .valueError) ∧
    runReceiver [] (encodeFrame (utf8Encode (strLit ("sensor-update \x22a"))))
      = ([], encodeFrame (utf8Encode (strLit ("sensor-update \x22a"))), some .indexError) := by
  constructor
  · decide
  · decide

/-- Claim C6 counterexample: encoding `send_broadcast("gamestart")` does
not produce the claimed wire bytes `00 00 00 11` + body — the body
`broadcast "gamestart"` is 21 bytes, not 17. -/
theorem gamestart_wire_bytes_cex :
    send_broadcast (.vstr (strLit ("gamestart")))
      ≠ .ok ([0, 0, 0, 0x11] ++ strLit ("broadcast \x22gamestart\x22")) := by
  decide

/-- Claim C6 (amended): encoding the broadcast message `gamestart`
produces the wire bytes `00 00 00 15` followed by the UTF-8 text
`broadcast "gamestart"`, i.e. a 21-byte body with big-endian length
prefix 0x15. -/
theorem gamestart_wire_bytes :
    send_broadcast (.vstr (strLit ("gamestart")))
      = .ok ([0, 0, 0, 0x15] ++ strLit ("broadcast \x22gamestart\x22")) := by
  decide

/-- Claim C9: `send_sensor_update` accepts boolean values (a Python
`bool` passes the `isinstance(value, int)` check) and serializes them as
the tokens `True`/`False`; those tokens are rejected by both the integer
and the float grammar on the inbound side, so a peer running the same
parser raises on them. -/
theorem bool_sensor_value_tokens :
    send_sensor_update [(strLit ("flag"), .vbool true)]
      = .ok (encodeFrame (strLit ("sensor-update \x22flag\x22 True "))) ∧
    send_sensor_update [(strLit ("flag"), .vbool false)]
      = .ok (encodeFrame (strLit ("sensor-update \x22flag\x22 False "))) ∧
    pyIsNumeric (.vbool true) = true ∧ pyIsNumeric (.vbool false) = true ∧
    parseIntTok (strLit ("True")) = none ∧ isFloatTok (strLit ("True")) = false ∧
    parseIntTok (strLit ("False")) = none ∧ isFloatTok (strLit ("False")) = false ∧
    parseValue (strLit ("True")) = .error .valueError ∧
    parseValue (strLit ("False")) = .error .valueError := by
  decide

/-- Claim C3: feeding the frame codec of `_receiver` one byte at a time
across N well-formed frames yields exactly the N frame bodies,
byte-identical and in order, with the buffer reset to empty at the end;
and no strict prefix of a frame ever yields a body — the buffer just
accumulates until the complete-frame condition holds. -/
theorem frame_codec_one_byte_roundtrip (frames : List (List Nat))
    (h : ∀ f ∈ frames, f.length < 2147483648) :
    runDecoder [] ((frames.map encodeFrame).flatten) = ([], frames) ∧
    (∀ body : List Nat, body.length < 2147483648 →
      ∀ k, k < (encodeFrame body).length →
        runDecoder [] ((encodeFrame body).take k) = ((encodeFrame body).take k, [])) :=
  ⟨runDecoder_frames frames h,
   fun _ hb _ hk => runDecoder_partial_prefix hb hk⟩

/-- Claim C3 witness: two frames with bodies `a` and `bc` delivered byte
by byte decode to exactly those two bodies with an empty final buffer. -/
theorem frame_codec_one_byte_roundtrip_witness :
    runDecoder [] ((([[97], [98, 99]].map encodeFrame).flatten)) = ([], [[97], [98, 99]]) :=
  (frame_codec_one_byte_roundtrip [[97], [98, 99]] (by decide)).1

/-- Claim C5: for every broadcast name without a double-quote character
(and made of valid Unicode scalars, with the framed body below the
2^31 length bound of the signed length prefix), `send_broadcast` writes
the frame `len('broadcast "<name>"')` + body, and feeding those bytes to
`_receiver` invokes the broadcast handler with exactly the original
name. -/
theorem broadcast_roundtrip (name : List Nat) (h : goodName name)
    (hlen : (utf8Encode (broadcastBody name)).length < 2147483648) :
    send_broadcast (.vstr name) = .ok (encodeFrame (utf8Encode (broadcastBody name))) ∧
    runReceiver [] (encodeFrame (utf8Encode (broadcastBody name)))
      = ([Event.broadcast name], [], none) := by
  constructor
  · rfl
  · have hq : ∀ c ∈ name, c ≠ 34 := fun c hc => (h c hc).1
    have h1 := @runReceiver_feed_frame _ [] _ _ hlen
      (utf8Decode_encode _ (broadcastBody_valid h)) (processFrame_broadcast hq)
    rw [List.append_nil] at h1
    rw [h1]
    rfl

/-- Claim C5 witness: the name `gamestart` round-trips exactly. -/
theorem broadcast_roundtrip_witness :
    runReceiver [] (encodeFrame (utf8Encode (broadcastBody (strLit ("gamestart")))))
      = ([Event.broadcast (strLit ("gamestart"))], [], none) :=
  (broadcast_roundtrip (strLit ("gamestart")) (by decide) (by decide)).2

/-- Claim C4 counterexample (precision loss of the fractional round
trip): the IEEE double CPython stores for `math.pi` is exactly
`884279719003555 / 2 ^ 48`.  Python 2.7's `str()` prints it as the
12-significant-digit token `3.14159265359` (`py2FloatStr`), so
`send_sensor_update(x=math.pi)` puts that token on the wire, and
`_receiver` hands the handler the float parsed from that token.  The
token's exact decimal value `314159265359 / 10 ^ 11` exceeds the
original double by more than `2 ^ (-50)`, while `float(token)` is within
half an ulp (`< 2 ^ (-51)` here) of the token's value — so the parsed
double cannot equal the original and the decoded mapping is **not**
equal to `{"x": math.pi}`: fractional values are not preserved to
floating-point precision, refuting the claim as stated. -/
theorem sensor_float_precision_cex :
    py2FloatStr 884279719003555 48 = strLit ("3.14159265359") ∧
    send_sensor_update [(strLit ("x"), .vfloat (py2FloatStr 884279719003555 48))]
      = .ok (encodeFrame (strLit ("sensor-update \x22x\x22 3.14159265359 "))) ∧
    runReceiver [] (encodeFrame (strLit ("sensor-update \x22x\x22 3.14159265359 ")))
      = ([Event.sensorUpdate [(strLit ("x"), .pfloat (strLit ("3.14159265359")))]],
          [], none) ∧
    tokenScaled (strLit ("3.14159265359")) = some (314159265359, 11) ∧
    (1 : ℚ) / 2 ^ 50 < (314159265359 : ℚ) / 10 ^ 11 - 884279719003555 / 2 ^ 48 :=
  ⟨by decide, by decide, by decide, by decide, by norm_num⟩

/-- Claim C4 (amended): for every sensor name/value list whose names are
quote-free valid text and whose values are integers or floats (a float
entering the program as the 12-significant-digit token Python 2.7's
`str()` prints for it), `send_sensor_update` writes the framed body
`sensor-update "<n>" <v> ...`, and feeding those bytes to `_receiver`
invokes the sensor-update handler with the same names in order, integer
values parsed back exactly as integers by `int()`, and each float value
parsed by `float()` from the very token that was sent — so fractional
values are preserved only to the 12 significant digits of that token,
not to full floating-point precision: the token printed for `math.pi`'s
double (`884279719003555 / 2 ^ 48`) denotes a value more than
`2 ^ (-50)` away from it (final conjunct).  The concrete scenario
stands: `{"a": 10, "b": 20}` produces the 28-byte body
`sensor-update "a" 10 "b" 20 ` with big-endian prefix `00 00 00 1c`, and
that frame parses back to `{"a": 10, "b": 20}`. -/
theorem sensor_update_roundtrip (pairs : List (List Nat × PyVal))
    (h : ∀ p ∈ pairs, goodName p.1 ∧ roundNum p.2)
    (hlen : (utf8Encode (sensorBody pairs)).length < 2147483648) :
    (send_sensor_update pairs = .ok (encodeFrame (utf8Encode (sensorBody pairs))) ∧
     runReceiver [] (encodeFrame (utf8Encode (sensorBody pairs)))
       = ([Event.sensorUpdate (pairs.map (fun p => (p.1, pyNumOf p.2)))], [], none)) ∧
    (send_sensor_update [(strLit ("a"), .vint 10), (strLit ("b"), .vint 20)]
       = .ok ([0, 0, 0, 28] ++ strLit ("sensor-update \x22a\x22 10 \x22b\x22 20 ")) ∧
     runReceiver [] ([0, 0, 0, 28] ++ strLit ("sensor-update \x22a\x22 10 \x22b\x22 20 "))
       = ([Event.sensorUpdate [(strLit ("a"), .pint 10), (strLit ("b"), .pint 20)]],
           [], none)) ∧
    (py2FloatStr 884279719003555 48 = strLit ("3.14159265359") ∧
     tokenScaled (strLit ("3.14159265359")) = some (314159265359, 11) ∧
     (1 : ℚ) / 2 ^ 50 < (314159265359 : ℚ) / 10 ^ 11 - 884279719003555 / 2 ^ 48) := by
  refine ⟨⟨?_, ?_⟩, ⟨by decide, by decide⟩, by decide, by decide, by norm_num⟩
  · rw [send_sensor_update,
      buildSensorChunks_ok (fun p hp => pyIsNumeric_of_roundNum (h p hp).2)]
    rfl
  · have hq : ∀ p ∈ pairs, (∀ c ∈ p.1, c ≠ 34) ∧ roundNum p.2 :=
      fun p hp => ⟨fun c hc => ((h p hp).1 c hc).1, (h p hp).2⟩
    have h1 := @runReceiver_feed_frame _ [] _ _ hlen
      (utf8Decode_encode _ (sensorBody_valid h)) (processFrame_sensor pairs hq)
    rw [List.append_nil] at h1
    rw [h1]
    rfl

/-- Claim C4 witness: the list `x = 5, y = 0.5` (one integer, one
fractional value whose token is a fixed point of the 12-digit printing)
round-trips through encode, frame, decode and parse. -/
theorem sensor_update_roundtrip_witness :
    runReceiver [] (encodeFrame (utf8Encode
        (sensorBody [(strLit ("x"), .vint 5), (strLit ("y"), .vfloat (strLit ("0.5")))])))
      = ([Event.sensorUpdate [(strLit ("x"), .pint 5),
          (strLit ("y"), .pfloat (strLit ("0.5")))]], [], none) :=
  ((sensor_update_roundtrip [(strLit ("x"), .vint 5), (strLit ("y"), .vfloat (strLit ("0.5")))]
    (by decide) (by decide)).1).2

/-- Claim C7: a decoded frame body starting with neither `broadcast` nor
`sensor-update` invokes no handler and raises no error, and the buffer
is reset, so the receiver state after such a frame is exactly the state
of running the receiver on the remaining bytes alone. -/
theorem ignored_prefix_frames (body rest : List Nat)
    (h1 : startsWith (strLit ("broadcast")) body = false)
    (h2 : startsWith (strLit ("sensor-update")) body = false)
    (hv : ∀ c ∈ body, validCp c)
    (hlen : (utf8Encode body).length < 2147483648) :
    processFrame body = .ok [] ∧
    runReceiver [] (encodeFrame (utf8Encode body) ++ rest) = runReceiver [] rest := by
  have hp := processFrame_ignored h1 h2
  refine ⟨hp, ?_⟩
  rw [runReceiver_feed_frame hlen (utf8Decode_encode body hv) hp]
  rfl

/-- Claim C7 witness: a frame with body `ping` followed by a `gamestart`
broadcast frame produces only the broadcast event. -/
theorem ignored_prefix_frames_witness :
    processFrame (strLit ("ping")) = .ok [] ∧
    runReceiver [] (encodeFrame (utf8Encode (strLit ("ping")))
        ++ encodeFrame (utf8Encode (broadcastBody (strLit ("gamestart")))))
      = runReceiver [] (encodeFrame (utf8Encode (broadcastBody (strLit ("gamestart"))))) :=
  ignored_prefix_frames (strLit ("ping"))
    (encodeFrame (utf8Encode (broadcastBody (strLit ("gamestart")))))
    (by decide) (by decide) (by decide) (by decide)

/-- Claim C8: when the first four bytes of the incoming stream read as a
big-endian value with the most significant bit set, `struct.unpack(">i")`
yields a negative length, the complete-frame condition can never hold,
and the receive loop yields no body, raises no error, and accumulates
every byte of the stream in its buffer. -/
theorem negative_length_prefix_stalls (stream : List Nat) (h4 : 4 ≤ stream.length)
    (hm : 2147483648 ≤ toU32 (stream.take 4)) :
    unpackInt (stream.take 4) < 0 ∧
    runDecoder [] stream = (stream, []) ∧
    runReceiver [] stream = ([], stream, none) := by
  have hu_lt : toU32 (stream.take 4) < 4294967296 :=
    toU32_lt (by rw [List.length_take]; omega)
  refine ⟨?_, ?_, ?_⟩
  · have htt : (stream.take 4).take 4 = stream.take 4 := by
      rw [List.take_take]
      norm_num
    rw [unpackInt, htt, toSigned, if_neg (by omega)]
    omega
  · have := runDecoder_quiet stream [] (neg_prefix_no_fire h4 hm)
    simpa using this
  · have := runReceiver_quiet stream [] (neg_prefix_no_fire h4 hm)
    simpa using this

/-- Claim C8 witness: the stream starting `FF 00 00 00` (length read as
-16777216) yields nothing and buffers all six bytes. -/
theorem negative_length_prefix_stalls_witness :
    runReceiver [] [255, 0, 0, 0, 1, 2] = ([], [255, 0, 0, 0, 1, 2], none) :=
  (negative_length_prefix_stalls [255, 0, 0, 0, 1, 2] (by decide) (by decide)).2.2

/-- Claim C2: every public operation validates argument types before any
I/O — `send_broadcast` raises `ValueError` on a non-string message,
`send_sensor_update` raises `ValueError` when any value is neither `int`
nor `float`, and `connect`'s validation raises `ValueError` on a
non-string host or non-integer port; with correctly typed arguments the
validation passes and the operation proceeds to encode and write the
frame bytes (respectively to open the socket). -/
theorem argument_type_validation :
    (∀ m, pyIsStr m = false → send_broadcast m = .error .valueError) ∧
    (∀ s, send_broadcast (.vstr s) = .ok (encodeFrame (utf8Encode (broadcastBody s)))) ∧
    (∀ pairs : List (List Nat × PyVal), (∃ p ∈ pairs, pyIsNumeric p.2 = false) →
      send_sensor_update pairs = .error .valueError) ∧
    (∀ pairs : List (List Nat × PyVal), (∀ p ∈ pairs, pyIsNumeric p.2 = true) →
      send_sensor_update pairs = .ok (encodeFrame (utf8Encode (sensorBody pairs)))) ∧
    (∀ h p, pyIsStr h = false → connect_check h p = .error .valueError) ∧
    (∀ h p, pyIsStr h = true → pyIsInt p = false → connect_check h p = .error .valueError) ∧
    (∀ h p, pyIsStr h = true → pyIsInt p = true → connect_check h p = .ok ()) := by
  refine ⟨?_, ?_, ?_, ?_, ?_, ?_, ?_⟩
  · intro m hm
    cases m with
    | vstr s => simp [pyIsStr] at hm
    | vint n => rfl
    | vfloat t => rfl
    | vbool b => rfl
    | vnone => rfl
  · intro s
    rfl
  · intro pairs hp
    rw [send_sensor_update, buildSensorChunks_err hp]
  · intro pairs hp
    rw [send_sensor_update, buildSensorChunks_ok hp]
    rfl
  · intro h p hh
    rw [connect_check, if_neg (by simp [hh])]
  · intro h p hh hp
    rw [connect_check, if_pos hh, if_neg (by simp [hp])]
  · intro h p hh hp
    rw [connect_check, if_pos hh, if_pos hp]

/-- Claim C2 witness: concrete instances — an integer message is
rejected, a string message is encoded and framed, a string sensor value
is rejected, integer values pass, a non-string host and a boolean-free
non-integer port are rejected, and a good host/port pair passes. -/
theorem argument_type_validation_witness :
    send_broadcast (.vint 3) = .error .valueError ∧
    send_broadcast (.vstr (strLit ("go"))) = .ok (encodeFrame (utf8Encode (broadcastBody (strLit ("go"))))) ∧
    send_sensor_update [(strLit ("a"), .vstr (strLit ("oops")))] = .error .valueError ∧
    send_sensor_update [(strLit ("a"), .vint 1)]
      = .ok (encodeFrame (utf8Encode (sensorBody [(strLit ("a"), .vint 1)]))) ∧
    connect_check (.vint 7) (.vint 42001) = .error .valueError ∧
    connect_check (.vstr (strLit ("localhost"))) (.vstr (strLit ("42001"))) = .error .valueError ∧
    connect_check (.vstr (strLit ("localhost"))) (.vint 42001) = .ok () :=
  ⟨argument_type_validation.1 (.vint 3) (by decide),
   argument_type_validation.2.1 (strLit ("go")),
   argument_type_validation.2.2.1 [(strLit ("a"), .vstr (strLit ("oops")))]
     ⟨(strLit ("a"), .vstr (strLit ("oops"))), by decide⟩,
   argument_type_validation.2.2.2.1 [(strLit ("a"), .vint 1)] (by decide),
   argument_type_validation.2.2.2.2.1 (.vint 7) (.vint 42001) (by decide),
   argument_type_validation.2.2.2.2.2.1 (.vstr (strLit ("localhost"))) (.vstr (strLit ("42001")))
     (by decide) (by decide),
   argument_type_validation.2.2.2.2.2.2 (.vstr (strLit ("localhost"))) (.vint 42001)
     (by decide) (by decide)⟩

/-- Claim C10: the `_connected` flag is written only by `connect` and
`disconnect`; the receiver thread dying of a fatal error changes no flag
other than the thread being gone, so `is_connected` still returns the
pre-death value (true for a connected session) until `disconnect` is
called — and any sequence of happenings without `connect`/`disconnect`
leaves `is_connected` unchanged. -/
theorem connected_flag_only_connect_disconnect :
    (∀ s, is_connected (applyOp s .recvFatal) = is_connected s ∧
      (applyOp s .recvFatal).threadRunning = false) ∧
    (∀ s, is_connected (applyOp (applyOp s .connectOk) .recvFatal) = true) ∧
    (∀ (s : ConnState) (ops : List FacadeOp),
      (∀ op ∈ ops, op ≠ FacadeOp.connectOk ∧ op ≠ FacadeOp.disconnectOp) →
      is_connected (ops.foldl applyOp s) = is_connected s) := by
  refine ⟨fun s => ⟨rfl, rfl⟩, fun s => rfl, ?_⟩
  intro s ops
  induction ops generalizing s with
  | nil => intro _; rfl
  | cons op rest ih =>
    intro h
    rw [List.foldl_cons]
    rw [ih _ (fun o ho => h o (by simp [ho]))]
    have hop := h op (by simp)
    cases op with
    | connectOk => exact absurd rfl hop.1
    | disconnectOp => exact absurd rfl hop.2
    | recvFatal => rfl

/-- Claim C10 witness: after a successful connect and a fatal receiver
error, `is_connected` still returns true. -/
theorem connected_flag_only_connect_disconnect_witness :
    is_connected (List.foldl applyOp (applyOp ⟨false, false, false⟩ .connectOk) [FacadeOp.recvFatal])
      = is_connected (applyOp ⟨false, false, false⟩ .connectOk) :=
  connected_flag_only_connect_disconnect.2.2 (applyOp ⟨false, false, false⟩ .connectOk)
    [FacadeOp.recvFatal] (by decide)
